import Mathlib

/-!
Verification of the omnisia repository (a collection of Rust teaching modules)
against its natural-language specification.

The development shallowly embeds the parts of the source that the claims are
about:
* a repository inventory (which modules exist, which define a `main` entry
  point, which declare `static` items, which I/O primitives their sources
  use), extracted from the files under `src/`;
* a name-resolution micro-model for the ill-formed method call in
  `vec-doc`'s `print_all`;
* value-level models of `arc-doc`'s `example_try_unwrap`, the thread-spawning
  atomic-counter examples of `arc-doc` and `atomic-docs`, the proc-macro
  expansion of `macro_demo`, and the pure library functions
  `sorted_unique` / `is_sorted_unique`, `normalize_whitespace`
  (`ownership-egro-doc/src/lib.rs`) and `RefCellCounter`
  (`cell-refcell-doc/src/lib.rs`).

Machine integers (`u32` in `RefCellCounter`) are modelled as `Nat` with
explicit reduction modulo `2 ^ 32` (release-profile wrapping semantics).
-/

namespace Omnisia

/-- The seventeen top-level modules of the repository, one per directory under
`src/` (the `proc-macro-workspace` directory is one module containing the two
crates `demo_app` and `macro_demo`). -/
inductive Module where
  | arcDoc
  | asyncDoc
  | atomicDocs
  | boxDoc
  | cellRefcellDoc
  | closuresDoc
  | declMacrosDoc
  | hashmapDoc
  | iteratorsDoc
  | memoryInitLayoutDoc
  | ownershipErgoDoc
  | patternMatchingDocs
  | pinDoc
  | procMacroWorkspace
  | rcDoc
  | vecDoc
  | weakDoc
deriving DecidableEq

/-- Whether the module's sources define a `fn main` entry point.  Extracted
from `src/`: every module has a `src/main.rs` with `fn main` except
`cell-refcell-doc`, whose only file is `src/lib.rs` (exposing the library
functions `cell_example` and `refcell_example`, with no entry point);
`proc-macro-workspace` has `fn main` in `demo_app/src/main.rs`. -/
def definesMain : Module → Bool
  | .cellRefcellDoc => false
  | _ => true

/-- External inputs read by the module's entry point.  Extracted from the
sources: no module's code mentions `std::env` (command-line flags or
environment), `std::fs` or file opening (configuration or input files), or
`stdin`; the list is empty for every module. -/
def externalInputsRead : Module → List String
  | _ => []

/-- The alphabet of I/O primitive kinds used to classify every externally
visible operation appearing in the sources. -/
inductive IoPrim where
  | stdoutWrite
  | stderrWrite
  | fileRead
  | fileWrite
  | netAccess
  | envRead
  | stdinRead
deriving DecidableEq

/-- I/O primitives occurring in each module's source.  Extracted from `src/`:
the only I/O operations in any module are the `println!` / `print!` macros
(writes to standard output); no module's source contains `eprintln!`,
`std::fs`, `std::net`, `std::env`, or `stdin` reads. -/
def ioPrimitivesUsed : Module → List IoPrim
  | _ => [IoPrim.stdoutWrite]

/-- Static items declared in each module's source (program-lifetime mutable
state).  Extracted from `src/`: the only `static` declarations in the
repository are in `atomic-docs/src/main.rs` — `READY : AtomicBool` and
`VALUE : AtomicU64` (lines 58-59, inside `ex_acquire_release_flag`) and
`PTR : AtomicPtr` (line 116, inside `ex_atomic_ptr_and_fence`); all other
state in every module is a local variable. -/
def staticItemsDeclared : Module → List String
  | .atomicDocs => [("READY" : String), ("VALUE" : String), ("PTR" : String)]
  | _ => []

/-! ### C1: name resolution for `print_all` in `vec-doc`

From `src/vec-doc/src/main.rs` lines 255-260: `print_all` is generic over `A`
with the single trait bound `AsRef` (of a slice of `i32`).  Inside a generic
function, a method call on the receiver resolves only through the methods of
the declared trait bounds, and the `AsRef` trait declares exactly one method,
`as_ref`.  The body of `print_all` calls `a.asRef()`. -/

/-- Methods callable on the receiver `a : A` of `print_all`, namely the
methods of its single declared trait bound `AsRef` (whose one method is
`as_ref`). -/
def printAllCallableMethods : List String := [("as_ref" : String)]

/-- The method name that the body of `print_all` actually invokes on `a`
(`src/vec-doc/src/main.rs` line 256: `a.asRef()`). -/
def printAllCalledMethod : String := "asRef"

/-! ### C3: the crates of the repository and cross-crate code at runtime -/

/-- The eighteen crates of the repository: one per single-crate module, plus
the two crates `demo_app` and `macro_demo` of `proc-macro-workspace`
(`mdemo` stands for the crate `macro_demo`). -/
inductive Crate where
  | arcDoc
  | asyncDoc
  | atomicDocs
  | boxDoc
  | cellRefcellDoc
  | closuresDoc
  | declMacrosDoc
  | hashmapDoc
  | iteratorsDoc
  | memoryInitLayoutDoc
  | ownershipErgoDoc
  | patternMatchingDocs
  | pinDoc
  | demoApp
  | mdemo
  | rcDoc
  | vecDoc
  | weakDoc
deriving DecidableEq

/-- For each crate, the crates of this repository whose source text defines
code that executes when the crate's entry point runs.  Extracted from `src/`:
`demo_app`'s executable contains the expansions of `macro_demo`'s
`quote!` templates — the `hello_world` method body generated by
`derive_hello_world` and the timing wrapper generated by `timeit`
(`macro_demo/src/lib.rs` lines 35-42 and 96-104) — so code authored in the
`macro_demo` crate runs as part of `demo_app`; every other crate's entry
point runs only its own code (plus the standard library and the external
crates `tokio` / `crossbeam`, which are not components of this repository). -/
def runtimeCodeOrigins : Crate → List Crate
  | .demoApp => [Crate.demoApp, Crate.mdemo]
  | c => [c]

/-- Body of the method generated by `macro_demo`'s `derive_hello_world`
(`macro_demo/src/lib.rs` lines 35-42): for a struct named `name`, the
generated `hello_world` returns the formatted string
`Hello from <name>!`. -/
def helloWorldMethodBody (structName : String) : String :=
  "Hello from " ++ structName ++ "!"

/-- The first demonstrated line of `demo_app`'s `main`
(`demo_app/src/main.rs` lines 29-31): it prints the result of
`u.hello_world()` for `u : User`, i.e. the `macro_demo`-generated body
applied to the struct name `User`. -/
def demoAppHelloLine : String := helloWorldMethodBody ("User")

/-! ### C4: the statics of `atomic-docs` survive the call that writes them -/

/-- The two static atomics declared inside `ex_acquire_release_flag`
(`atomic-docs/src/main.rs` lines 58-59): `READY : AtomicBool`, initially
`false`, and `VALUE : AtomicU64`, initially `0`. -/
structure AtomicDocsStatics where
  ready : Bool
  value : Nat
deriving DecidableEq

/-- Initial values of the statics: `AtomicBool::new(false)` and
`AtomicU64::new(0)`. -/
def atomicDocsStaticsInit : AtomicDocsStatics := ⟨false, 0⟩

/-- Result of running `ex_acquire_release_flag` from the program's initial
state (`atomic-docs/src/main.rs` lines 56-76): the writer thread stores 42
into `VALUE` (Relaxed) and then `true` into `READY` (Release); the reader
thread spins until it observes `READY` with Acquire and then — by the
happens-before edge — must observe `VALUE = 42`.  After both joins the
function returns, leaving the statics at `(true, 42)`; the second component
is the value the reader observed and printed. -/
def ex_acquire_release_flag_run : AtomicDocsStatics × Nat :=
  ((⟨true, 42⟩ : AtomicDocsStatics), 42)

/-! ### C5: `example_try_unwrap` in `arc-doc` handles an error without panicking -/

/-- Model of `Arc::try_unwrap` (per its std contract, as exercised by
`arc-doc/src/main.rs` lines 103-120): succeeds with the inner value when the
strong count is 1, otherwise fails with the Arc back (modelled by its strong
count). -/
def tryUnwrap (strong : Nat) (v : String) : Except Nat String :=
  if strong = 1 then Except.ok v else Except.error strong

/-- Output trace of `example_try_unwrap` (`arc-doc/src/main.rs` lines
103-120): the first `Arc` is uniquely owned (strong count 1), so
`try_unwrap` succeeds and the `Ok` arm prints; the second `Arc` has a live
clone (strong count 2), so `try_unwrap` fails and the `Err` arm prints the
strong count — a designed, non-panicking error branch — after which the
function returns normally. -/
def example_try_unwrap_trace : List String :=
  (match tryUnwrap 1 ("unique") with
   | Except.ok s => [("moved out: " ++ s)]
   | Except.error _ => [("still shared" : String)]) ++
  (match tryUnwrap 2 ("shared") with
   | Except.ok _ => [("unexpected" : String)]
   | Except.error n => [("cannot unwrap: strong_count = " ++ toString n)])

/-- Sites verified in the sources where a fallible operation's error value is
handled by a designed non-panicking branch (reported, converted or recovered
from), rather than unwrapped.  Extracted from `src/` (not exhaustive):
`arc-doc`'s `example_try_unwrap` matches on `Err` and prints the strong
count; `hashmap-doc`'s `ex_entry_api` matches on `try_insert`'s `Err`;
`vec-doc`'s `example_safety_and_panic_free` handles out-of-bounds with
`get` / `get_mut` and `if let`; `macro_demo`'s `derive_hello_world` converts
a `syn::Error` into a compile error instead of panicking. -/
def nonPanickingErrorSites : List (Module × String) :=
  [(Module.arcDoc, ("example_try_unwrap Err branch" : String)),
   (Module.hashmapDoc, ("ex_entry_api try_insert Err branch" : String)),
   (Module.vecDoc, ("example_safety_and_panic_free get branch" : String)),
   (Module.procMacroWorkspace, ("derive_hello_world to_compile_error branch" : String))]

/-! ### C6: the thread-spawning counter examples

Operational model of the two counter examples, `example_atomic_counter`
(`arc-doc/src/main.rs` lines 85-101: 8 threads, 1000 `fetch_add(1, Relaxed)`
each) and `ex_relaxed_counter` (`atomic-docs/src/main.rs` lines 36-50:
8 threads, 100000 `fetch_add(1, Relaxed)` each).  A state holds the shared
atomic counter and, per thread, the number of remaining loop iterations; a
step is one thread executing one `fetch_add(1)` — the read-modify-write is a
single atomic action, so an arbitrary interleaving of the threads is an
arbitrary sequence of such steps.  The joins at the end of each example mean
the final counter is read only in a state where every thread has finished. -/

/-- State shared by the `T` spawned threads: the atomic counter's value and
each thread's remaining number of `fetch_add` iterations. -/
structure CounterSt (T : Nat) where
  c : Nat
  rem : Fin T → Nat
deriving DecidableEq

/-- One interleaving step: a thread `i` that still has iterations left
executes `fetch_add(1, Relaxed)`, atomically incrementing the shared counter
and using up one of its iterations. -/
inductive CounterStep {T : Nat} : CounterSt T → CounterSt T → Prop where
  | fetchAdd (s : CounterSt T) (i : Fin T) (h : 0 < s.rem i) :
      CounterStep s ⟨s.c + 1, Function.update s.rem i (s.rem i - 1)⟩

/-- Initial state of a counter example: the counter starts at 0
(`AtomicUsize::new(0)`) and each of the `T` threads has `N` iterations to
run. -/
def counterInit (T N : Nat) : CounterSt T := ⟨0, fun _ => N⟩

/-- Reachability under an arbitrary interleaving of the threads. -/
def CounterReach {T : Nat} : CounterSt T → CounterSt T → Prop :=
  Relation.ReflTransGen CounterStep

/-! ### C8 / C9: `ownership-egro-doc/src/lib.rs`

Value-level model of `Cow` and of the two pure library functions the claims
are about.  A `Cow` value is either a zero-copy borrow or an owned value;
`to_mut` turns a borrow into an owned clone, so a function that conditionally
calls `to_mut` returns its input unchanged on the no-op path and an owned
result on the modifying path. -/

/-- Model of `std::borrow::Cow`: either a borrow of the input or an owned
value. -/
inductive Cow (α : Type) where
  | borrowed (v : α)
  | owned (v : α)
deriving DecidableEq

/-- The underlying value of a `Cow` (what dereferencing yields). -/
def Cow.val {α : Type} : Cow α → α
  | .borrowed v => v
  | .owned v => v

/-- Model of `is_sorted_unique` (`ownership-egro-doc/src/lib.rs` lines 68-70):
`slice.windows(2).all(w0 < w1)` — every adjacent pair is strictly
increasing. -/
def is_sorted_unique {α : Type} [LinearOrder α] : List α → Bool
  | [] => true
  | [_] => true
  | a :: b :: rest => (decide (a < b)) && is_sorted_unique (b :: rest)

/-- Model of `Vec::sort` as called in `sorted_unique`: the standard library's
stable sort, which produces a `≤`-sorted permutation of its input.  It is
embedded by insertion sort, which has exactly those documented properties
(sorted output, a permutation, stable); the claims depend on nothing else. -/
def rustSort {α : Type} [LinearOrder α] (l : List α) : List α :=
  List.insertionSort (· ≤ ·) l

/-- Model of `Vec::dedup` as called in `sorted_unique`: removes consecutive
repeated elements, keeping the first element of each run. -/
def dedupAdj {α : Type} [DecidableEq α] : List α → List α
  | [] => []
  | [a] => [a]
  | a :: b :: rest =>
    if a = b then dedupAdj (a :: rest) else a :: dedupAdj (b :: rest)
termination_by l => l.length

/-- Model of `sorted_unique` (`ownership-egro-doc/src/lib.rs` lines 58-66):
if the cow's contents are already strictly increasing the cow is returned
unchanged; otherwise `to_mut` clones into an owned vector which is sorted
and deduplicated. -/
def sorted_unique {α : Type} [LinearOrder α] (xs : Cow (List α)) : Cow (List α) :=
  if is_sorted_unique xs.val then xs
  else Cow.owned (dedupAdj (rustSort xs.val))

/-- Model of Rust's `char::is_whitespace` (the Unicode `White_Space`
property), the separator set used by `str::split_whitespace`. -/
def rustIsWhitespace (c : Char) : Bool :=
  c.val == 0x09 || c.val == 0x0A || c.val == 0x0B || c.val == 0x0C ||
  c.val == 0x0D || c.val == 0x20 || c.val == 0x85 || c.val == 0xA0 ||
  c.val == 0x1680 ||
  (decide (0x2000 ≤ c.val) && decide (c.val ≤ 0x200A)) ||
  c.val == 0x2028 || c.val == 0x2029 || c.val == 0x202F ||
  c.val == 0x205F || c.val == 0x3000

/-- Model of `str::split_whitespace` on a string (as a list of characters):
the maximal runs of non-whitespace characters, in order, with empty runs
discarded. -/
def splitWs : List Char → List (List Char)
  | [] => []
  | c :: cs =>
    if rustIsWhitespace c then splitWs cs
    else (c :: cs.takeWhile (fun x => !rustIsWhitespace x))
      :: splitWs (cs.dropWhile (fun x => !rustIsWhitespace x))
termination_by l => l.length
decreasing_by
  all_goals simp only [List.length_cons]
  · omega
  · exact Nat.lt_succ_of_le (List.Sublist.length_le (List.dropWhile_sublist _))

/-- Model of `.collect::Vec.join(" ")` on the split pieces: interpose a
single space between consecutive pieces. -/
def joinSpace : List (List Char) → List Char
  | [] => []
  | [p] => p
  | p :: q :: ps => p ++ ' ' :: joinSpace (q :: ps)

/-- Model of `normalize_whitespace` (`ownership-egro-doc/src/lib.rs` lines
30-38): if the string contains a tab or newline, `to_mut` clones it and the
owned copy is replaced by its whitespace-split pieces joined with single
spaces; otherwise the input is returned unchanged (borrowed). -/
def normalize_whitespace (s : List Char) : Cow (List Char) :=
  if '\t' ∈ s ∨ '\n' ∈ s then Cow.owned (joinSpace (splitWs s))
  else Cow.borrowed s

/-! ### C10: `RefCellCounter` in `cell-refcell-doc/src/lib.rs`

The counter's state is the history vector inside the `RefCell`; entries are
`u32`, modelled as naturals reduced modulo `2 ^ 32` (release-profile
wrapping semantics of `+`). -/

/-- The modulus of `u32` arithmetic. -/
def u32Mod : Nat := 2 ^ 32

/-- Model of `RefCellCounter::tick` (`cell-refcell-doc/src/lib.rs` lines
23-27): read the last entry (0 if the history is empty), add one (u32
arithmetic), push the result. -/
def rcTick (h : List Nat) : List Nat :=
  h ++ [(h.getLast?.getD 0 + 1) % u32Mod]

/-- Model of `RefCellCounter::last` (lines 29-32): the last entry, or 0 when
the history is empty; a read-only borrow. -/
def rcLast (h : List Nat) : Nat := h.getLast?.getD 0

/-- Model of `RefCellCounter::all` (lines 34-36): a clone of the whole
history; a read-only borrow. -/
def rcAll (h : List Nat) : List Nat := h

/-- The three operations of `RefCellCounter`. -/
inductive RcOp where
  | tick
  | lastQ
  | allQ
deriving DecidableEq

/-- Whether an operation is a `tick`. -/
def RcOp.isTick : RcOp → Bool
  | .tick => true
  | _ => false

/-- Effect of one operation on the history: `tick` appends, the two queries
(`last`, `all`) only read. -/
def rcStep (h : List Nat) : RcOp → List Nat
  | .tick => rcTick h
  | .lastQ => h
  | .allQ => h

/-- Run a sequence of operations from a starting history. -/
def rcRun (h : List Nat) : List RcOp → List Nat
  | [] => h
  | op :: ops => rcRun (rcStep h op) ops

/-- Number of `tick` operations in a sequence. -/
def tickCount (ops : List RcOp) : Nat := ops.countP RcOp.isTick

/-- The history after `n` ticks from the empty history: the initial segment
`1, 2, …, n` of the positive integers, each reduced modulo `2 ^ 32`. -/
def histN (n : Nat) : List Nat :=
  (List.range' 1 n).map (fun i => i % u32Mod)

/-- Each step preserves the sum of the counter and all remaining
iterations. -/
theorem counterStep_inv {T : Nat} {s t : CounterSt T} (h : CounterStep s t) :
    t.c + ∑ i, t.rem i = s.c + ∑ i, s.rem i := by
  cases h with
  | fetchAdd i hpos =>
    have hupd : ∑ j, Function.update s.rem i (s.rem i - 1) j
        = (s.rem i - 1) + ∑ j ∈ Finset.univ \ {i}, s.rem j :=
      Finset.sum_update_of_mem (Finset.mem_univ i) s.rem (s.rem i - 1)
    have hsplit : ∑ j, s.rem j = s.rem i + ∑ j ∈ Finset.univ \ {i}, s.rem j := by
      rw [Finset.sum_eq_add_sum_diff_singleton (Finset.mem_univ i)]
    simp only [hupd]
    omega

/-- The invariant holds along every interleaving. -/
theorem counterReach_inv {T : Nat} {s t : CounterSt T} (h : CounterReach s t) :
    t.c + ∑ i, t.rem i = s.c + ∑ i, s.rem i := by
  induction h with
  | refl => rfl
  | tail _ hstep ih => rw [counterStep_inv hstep, ih]

/-- In any state reachable from the initial state in which every thread has
finished its iterations, the counter equals `T * N`. -/
theorem counter_final {T N : Nat} {s : CounterSt T}
    (h : CounterReach (counterInit T N) s) (hdone : ∀ i, s.rem i = 0) :
    s.c = T * N := by
  have hinv := counterReach_inv h
  have hz : ∑ i, s.rem i = 0 := Finset.sum_eq_zero (fun i _ => hdone i)
  rw [hz] at hinv
  have hc0 : (counterInit T N).c = 0 := rfl
  have hstart : ∑ i, (counterInit T N).rem i = T * N := by
    show (∑ _i : Fin T, N) = T * N
    rw [Finset.sum_const, Finset.card_univ, Fintype.card_fin, smul_eq_mul]
  omega

/-- From any state there is an interleaving that runs every thread to
completion, draining the remaining sum into the counter. -/
theorem counter_drain {T : Nat} :
    ∀ (n c : Nat) (rem : Fin T → Nat), (∑ i, rem i) = n →
      CounterReach ⟨c, rem⟩ ⟨c + n, fun _ => 0⟩ := by
  intro n
  induction n with
  | zero =>
    intro c rem hsum
    have hz : ∀ i, rem i = 0 := fun i =>
      (Finset.sum_eq_zero_iff.mp hsum) i (Finset.mem_univ i)
    have : rem = fun _ => 0 := funext hz
    subst this
    exact Relation.ReflTransGen.refl
  | succ n ih =>
    intro c rem hsum
    have hex : ∃ i, rem i ≠ 0 := by
      by_contra hall
      push_neg at hall
      have : ∑ i, rem i = 0 := Finset.sum_eq_zero (fun i _ => hall i)
      omega
    obtain ⟨i, hi⟩ := hex
    have hpos : 0 < rem i := Nat.pos_of_ne_zero hi
    have hstep : CounterStep (⟨c, rem⟩ : CounterSt T)
        ⟨c + 1, Function.update rem i (rem i - 1)⟩ :=
      CounterStep.fetchAdd ⟨c, rem⟩ i hpos
    have hupd : ∑ j, Function.update rem i (rem i - 1) j
        = (rem i - 1) + ∑ j ∈ Finset.univ \ {i}, rem j :=
      Finset.sum_update_of_mem (Finset.mem_univ i) rem (rem i - 1)
    have hsplit : ∑ j, rem j = rem i + ∑ j ∈ Finset.univ \ {i}, rem j := by
      rw [Finset.sum_eq_add_sum_diff_singleton (Finset.mem_univ i)]
    have hsum' : ∑ j, Function.update rem i (rem i - 1) j = n := by
      omega
    have htail := ih (c + 1) (Function.update rem i (rem i - 1)) hsum'
    have harith : c + 1 + n = c + (n + 1) := by omega
    rw [harith] at htail
    exact Relation.ReflTransGen.head hstep htail

/-! ### Helper lemmas for C8 -/

/-- Characterisation of `is_sorted_unique`: it decides the strictly
increasing adjacent-pair chain. -/
theorem is_sorted_unique_iff {α : Type} [LinearOrder α] (l : List α) :
    is_sorted_unique l = true ↔ List.Chain' (· < ·) l := by
  induction l with
  | nil => simp [is_sorted_unique]
  | cons a t ih =>
    cases t with
    | nil => simp [is_sorted_unique]
    | cons b rest =>
      rw [is_sorted_unique, List.chain'_cons, Bool.and_eq_true, decide_eq_true_iff]
      exact and_congr Iff.rfl ih

/-- `dedupAdj` keeps the head of a nonempty list. -/
theorem dedupAdj_head {α : Type} [DecidableEq α] (l : List α) (hne : l ≠ []) :
    (dedupAdj l).head? = l.head? := by
  induction l using dedupAdj.induct with
  | case1 => exact absurd rfl hne
  | case2 a => rw [dedupAdj]
  | case3 a b ih =>
    rw [dedupAdj, if_pos rfl]
    rw [ih (List.cons_ne_nil a b)]
    rfl
  | case4 a b rest h ih =>
    rw [dedupAdj, if_neg h]
    rfl

/-- `dedupAdj` preserves the set of elements. -/
theorem mem_dedupAdj {α : Type} [DecidableEq α] (l : List α) (x : α) :
    x ∈ dedupAdj l ↔ x ∈ l := by
  induction l using dedupAdj.induct with
  | case1 => rw [dedupAdj]
  | case2 a => rw [dedupAdj]
  | case3 a b ih =>
    rw [dedupAdj, if_pos rfl, ih]
    simp [List.mem_cons]
  | case4 a b rest h ih =>
    rw [dedupAdj, if_neg h]
    simp [List.mem_cons, ih]

/-- On a `≤`-sorted list, `dedupAdj` yields a strictly increasing list. -/
theorem dedupAdj_chain_lt {α : Type} [LinearOrder α] (l : List α)
    (hch : List.Chain' (· ≤ ·) l) : List.Chain' (· < ·) (dedupAdj l) := by
  induction l using dedupAdj.induct with
  | case1 => simp [dedupAdj]
  | case2 a => simp [dedupAdj]
  | case3 a b ih =>
    rw [dedupAdj, if_pos rfl]
    rw [List.chain'_cons] at hch
    exact ih hch.2
  | case4 a b rest h ih =>
    rw [dedupAdj, if_neg h]
    rw [List.chain'_cons] at hch
    obtain ⟨hab, htail⟩ := hch
    rw [List.chain'_cons']
    refine ⟨?_, ih htail⟩
    intro y hy
    rw [dedupAdj_head (b :: rest) (List.cons_ne_nil b rest)] at hy
    simp only [List.head?_cons, Option.mem_def, Option.some.injEq] at hy
    subst hy
    exact lt_of_le_of_ne hab h

/-- `rustSort` preserves the set of elements (it is a permutation). -/
theorem mem_rustSort {α : Type} [LinearOrder α] (l : List α) (x : α) :
    x ∈ rustSort l ↔ x ∈ l :=
  (List.perm_insertionSort (· ≤ ·) l).mem_iff

/-- `rustSort` sorts with respect to `≤`. -/
theorem rustSort_chain_le {α : Type} [LinearOrder α] (l : List α) :
    List.Chain' (· ≤ ·) (rustSort l) :=
  (List.sorted_insertionSort (· ≤ ·) l).chain'

/-- Claim C8: for every slice `xs` of a totally ordered element type,
`sorted_unique` returns a strictly increasing sequence whose set of elements
equals the set of elements of `xs`, and when `xs` is already strictly
increasing (`is_sorted_unique xs` holds) the result is exactly the input,
returned as a borrow without cloning. -/
theorem sorted_unique_spec {α : Type} [LinearOrder α] (xs : List α) :
    List.Chain' (· < ·) (sorted_unique (Cow.borrowed xs)).val ∧
    (∀ a, a ∈ (sorted_unique (Cow.borrowed xs)).val ↔ a ∈ xs) ∧
    (is_sorted_unique xs = true →
      sorted_unique (Cow.borrowed xs) = Cow.borrowed xs) := by
  by_cases hs : is_sorted_unique xs = true
  · have hval : sorted_unique (Cow.borrowed xs) = Cow.borrowed xs := by
      simp [sorted_unique, Cow.val, hs]
    refine ⟨?_, ?_, fun _ => hval⟩
    · rw [hval]
      exact (is_sorted_unique_iff xs).mp hs
    · intro a
      rw [hval]
      exact Iff.rfl
  · have hval : sorted_unique (Cow.borrowed xs)
        = Cow.owned (dedupAdj (rustSort xs)) := by
      simp [sorted_unique, Cow.val, hs]
    refine ⟨?_, ?_, fun h => absurd h hs⟩
    · rw [hval]
      exact dedupAdj_chain_lt (rustSort xs) (rustSort_chain_le xs)
    · intro a
      rw [hval]
      show a ∈ dedupAdj (rustSort xs) ↔ a ∈ xs
      rw [mem_dedupAdj, mem_rustSort]

/-- Witness for C8 at a concrete already-sorted slice: the hypothesis
`is_sorted_unique [1, 3, 5] = true` is discharged by evaluation and the
theorem yields the borrowed, unchanged result. -/
theorem sorted_unique_spec_witness :
    sorted_unique (Cow.borrowed [(1 : Nat), 3, 5]) = Cow.borrowed [(1 : Nat), 3, 5] :=
  (sorted_unique_spec [(1 : Nat), 3, 5]).2.2 (by decide)

/-! ### Helper lemmas for C9 -/

set_option maxHeartbeats 1600000 in
/-- Every character of every piece produced by `splitWs` is a
non-whitespace character. -/
theorem mem_splitWs_not_ws :
    ∀ (l : List Char), ∀ p ∈ splitWs l, ∀ x ∈ p, rustIsWhitespace x = false := by
  intro l
  induction l using splitWs.induct with
  | case1 =>
    intro p hp
    rw [splitWs] at hp
    exact absurd hp (List.not_mem_nil p)
  | case2 c cs h ih =>
    intro p hp x hx
    rw [splitWs, if_pos h] at hp
    exact ih p hp x hx
  | case3 c cs h ih =>
    intro p hp x hx
    rw [splitWs, if_neg h] at hp
    rcases List.mem_cons.mp hp with rfl | hp'
    · rcases List.mem_cons.mp hx with rfl | hx'
      · exact Bool.eq_false_iff.mpr h
      · have hw := List.mem_takeWhile_imp hx'
        simpa using hw
    · exact ih p hp' x hx

/-- Every character of the joined string is either the single-space
separator or a character of one of the pieces. -/
theorem mem_joinSpace :
    ∀ (ps : List (List Char)) (x : Char),
      x ∈ joinSpace ps → x = ' ' ∨ ∃ p ∈ ps, x ∈ p := by
  intro ps
  induction ps using joinSpace.induct with
  | case1 =>
    intro x hx
    rw [joinSpace] at hx
    exact absurd hx (List.not_mem_nil x)
  | case2 p =>
    intro x hx
    rw [joinSpace] at hx
    exact Or.inr ⟨p, List.mem_singleton_self p, hx⟩
  | case3 p q ps ih =>
    intro x hx
    rw [joinSpace] at hx
    rcases List.mem_append.mp hx with h1 | h2
    · exact Or.inr ⟨p, List.mem_cons_self p (q :: ps), h1⟩
    · rcases List.mem_cons.mp h2 with rfl | h3
      · exact Or.inl rfl
      · rcases ih x h3 with h | ⟨r, hr, hxr⟩
        · exact Or.inl h
        · exact Or.inr ⟨r, List.mem_cons_of_mem p hr, hxr⟩

/-- The result of `normalize_whitespace` contains neither a tab nor a
newline. -/
theorem normalize_no_tab_nl (s : List Char) :
    '\t' ∉ (normalize_whitespace s).val ∧ '\n' ∉ (normalize_whitespace s).val := by
  by_cases hc : '\t' ∈ s ∨ '\n' ∈ s
  · have hval : (normalize_whitespace s).val = joinSpace (splitWs s) := by
      rw [normalize_whitespace, if_pos hc]
      rfl
    rw [hval]
    constructor
    · intro hmem
      rcases mem_joinSpace (splitWs s) '\t' hmem with h | ⟨p, hp, hxp⟩
      · exact absurd h (by decide)
      · have hf := mem_splitWs_not_ws s p hp '\t' hxp
        have ht : rustIsWhitespace '\t' = true := by decide
        rw [hf] at ht
        exact Bool.noConfusion ht
    · intro hmem
      rcases mem_joinSpace (splitWs s) '\n' hmem with h | ⟨p, hp, hxp⟩
      · exact absurd h (by decide)
      · have hf := mem_splitWs_not_ws s p hp '\n' hxp
        have ht : rustIsWhitespace '\n' = true := by decide
        rw [hf] at ht
        exact Bool.noConfusion ht
  · have hval : normalize_whitespace s = Cow.borrowed s := by
      rw [normalize_whitespace, if_neg hc]
    rw [hval]
    rw [not_or] at hc
    exact hc

/-- Claim C9: `normalize_whitespace` is idempotent, its result never
contains a tab or newline character, and when the input contains neither
tab nor newline the result is the input unchanged, returned borrowed. -/
theorem normalize_whitespace_spec (s : List Char) :
    (normalize_whitespace ((normalize_whitespace s).val)).val
        = (normalize_whitespace s).val ∧
    '\t' ∉ (normalize_whitespace s).val ∧
    '\n' ∉ (normalize_whitespace s).val ∧
    (('\t' ∉ s ∧ '\n' ∉ s) → normalize_whitespace s = Cow.borrowed s) := by
  obtain ⟨h1, h2⟩ := normalize_no_tab_nl s
  have hb : normalize_whitespace ((normalize_whitespace s).val)
      = Cow.borrowed ((normalize_whitespace s).val) := by
    rw [normalize_whitespace, if_neg (not_or.mpr ⟨h1, h2⟩)]
  refine ⟨by rw [hb]; rfl, h1, h2, ?_⟩
  intro hno
  rw [normalize_whitespace, if_neg (not_or.mpr hno)]

/-- Witness for C9 at a concrete tab-free and newline-free input: the
hypothesis is discharged by evaluation and the theorem yields the borrowed,
unchanged result. -/
theorem normalize_whitespace_spec_witness :
    normalize_whitespace [('h' : Char), 'i'] = Cow.borrowed [('h' : Char), 'i'] :=
  (normalize_whitespace_spec [('h' : Char), 'i']).2.2.2 ⟨by decide, by decide⟩

/-! ### Helper lemmas for C10 -/

/-- The last entry of the history after `n` ticks is `n` reduced modulo
`2 ^ 32`. -/
theorem histN_last (n : Nat) : (histN n).getLast?.getD 0 = n % u32Mod := by
  cases n with
  | zero => simp [histN]
  | succ m =>
    rw [histN, List.range'_1_concat, List.map_append]
    simp [Nat.add_comm]

/-- One tick advances the canonical history by one entry. -/
theorem rcTick_histN (n : Nat) : rcTick (histN n) = histN (n + 1) := by
  have h1 : (1 : Nat) % u32Mod = 1 := by norm_num [u32Mod]
  have hm : (n % u32Mod + 1) % u32Mod = (n + 1) % u32Mod := by
    conv_rhs => rw [Nat.add_mod, h1]
  rw [rcTick, histN_last, hm]
  rw [histN, histN, List.range'_1_concat, List.map_append]
  simp [Nat.add_comm]

/-- Running any operation sequence from the canonical history after `k`
ticks yields the canonical history after `k` plus the number of ticks in
the sequence; the two queries leave the state unchanged. -/
theorem rcRun_histN (ops : List RcOp) :
    ∀ k, rcRun (histN k) ops = histN (k + tickCount ops) := by
  induction ops with
  | nil =>
    intro k
    simp [rcRun, tickCount]
  | cons op ops ih =>
    intro k
    cases op with
    | tick =>
      rw [rcRun]
      show rcRun (rcTick (histN k)) ops = _
      rw [rcTick_histN, ih (k + 1)]
      have : k + 1 + tickCount ops = k + tickCount (RcOp.tick :: ops) := by
        rw [tickCount, tickCount, List.countP_cons]
        simp [RcOp.isTick]
        omega
      rw [this]
    | lastQ =>
      rw [rcRun]
      show rcRun (histN k) ops = _
      rw [ih k]
      have : k + tickCount ops = k + tickCount (RcOp.lastQ :: ops) := by
        rw [tickCount, tickCount, List.countP_cons]
        simp [RcOp.isTick]
      rw [this]
    | allQ =>
      rw [rcRun]
      show rcRun (histN k) ops = _
      rw [ih k]
      have : k + tickCount ops = k + tickCount (RcOp.allQ :: ops) := by
        rw [tickCount, tickCount, List.countP_cons]
        simp [RcOp.isTick]
      rw [this]

/-- Running from the empty history (the counter's initial state) yields the
canonical history of the sequence's tick count. -/
theorem rcRun_nil_eq (ops : List RcOp) :
    rcRun [] ops = histN (tickCount ops) := by
  have h := rcRun_histN ops 0
  have h0 : histN 0 = [] := rfl
  rw [h0] at h
  rw [h]
  rw [Nat.zero_add]

/-- A sequence of `n` ticks contains `n` ticks. -/
theorem tickCount_replicate (n : Nat) :
    tickCount (List.replicate n RcOp.tick) = n := by
  induction n with
  | zero => rfl
  | succ m ih =>
    rw [List.replicate_succ, tickCount, List.countP_cons]
    rw [tickCount] at ih
    rw [ih]
    simp [RcOp.isTick]

/-- Claim C10 (amended): starting from the empty history, after any
operation sequence whose number `n` of ticks is below `2 ^ 32` (the `u32`
range), `all` returns exactly `1, 2, …, n` and `last` returns `n` (0 when
`n = 0`); the interleaved `last` / `all` queries do not change the state. -/
theorem refcell_counter_correct (ops : List RcOp)
    (h : tickCount ops < u32Mod) :
    rcAll (rcRun [] ops) = List.range' 1 (tickCount ops) ∧
    rcLast (rcRun [] ops) = tickCount ops := by
  rw [rcAll, rcLast, rcRun_nil_eq]
  constructor
  · rw [histN]
    have hid : ∀ i ∈ List.range' 1 (tickCount ops), i % u32Mod = i := by
      intro i hi
      rw [List.mem_range'_1] at hi
      exact Nat.mod_eq_of_lt (by omega)
    rw [List.map_congr_left hid]
    exact List.map_id (List.range' 1 (tickCount ops))
  · show (histN (tickCount ops)).getLast?.getD 0 = tickCount ops
    rw [histN_last]
    exact Nat.mod_eq_of_lt h

/-- Witness for C10 at a concrete sequence of three ticks interleaved with
queries: the tick-count bound is discharged by evaluation. -/
theorem refcell_counter_correct_witness :
    rcAll (rcRun [] [RcOp.tick, RcOp.lastQ, RcOp.tick, RcOp.allQ, RcOp.tick])
        = List.range' 1
            (tickCount [RcOp.tick, RcOp.lastQ, RcOp.tick, RcOp.allQ, RcOp.tick]) ∧
    rcLast (rcRun [] [RcOp.tick, RcOp.lastQ, RcOp.tick, RcOp.allQ, RcOp.tick])
        = tickCount [RcOp.tick, RcOp.lastQ, RcOp.tick, RcOp.allQ, RcOp.tick] :=
  refcell_counter_correct
    [RcOp.tick, RcOp.lastQ, RcOp.tick, RcOp.allQ, RcOp.tick] (by decide)

/-- Counterexample to C10 as stated: after exactly `2 ^ 32` ticks the `u32`
increment wraps around, so `last` returns 0, not the number of ticks — the
claim's "any number n of tick operations" fails at `n = 2 ^ 32`. -/
theorem refcell_counter_claim_counterexample :
    rcLast (rcRun [] (List.replicate u32Mod RcOp.tick)) ≠ u32Mod := by
  rw [rcLast, rcRun_nil_eq, tickCount_replicate]
  show (histN u32Mod).getLast?.getD 0 ≠ u32Mod
  rw [histN_last, Nat.mod_self]
  norm_num [u32Mod]

/-! ### Claim theorems C1 – C7 -/

/-- Claim C1 (code-bug evidence): the body of `print_all` in `vec-doc` calls
the method `asRef` on its receiver, but the only method available through
the receiver's single trait bound (`AsRef`, whose one method is `as_ref`)
is `as_ref` — so `print_all` is not well-formed and `vec-doc` does not
compile, contradicting the claim that every module is runnable. -/
theorem print_all_method_unresolvable :
    printAllCalledMethod ∉ printAllCallableMethods := by
  decide

/-- Counterexample to C2 as stated: the module `cell-refcell-doc` defines no
`main` entry point (its only source file is a library). -/
theorem cell_refcell_doc_no_entry_point :
    definesMain Module.cellRefcellDoc = false := by
  rfl

/-- Claim C2 (amended): every module except `cell-refcell-doc` defines a
`main` entry point, and no module reads command-line flags, configuration,
or input files. -/
theorem modules_standalone_amended :
    (∀ m : Module, m ≠ Module.cellRefcellDoc → definesMain m = true) ∧
    (∀ m : Module, externalInputsRead m = []) := by
  constructor
  · intro m hm
    cases m <;> first | rfl | exact absurd rfl hm
  · intro m
    rfl

/-- Witness for the amended C2 at the concrete module `rc-doc`. -/
theorem modules_standalone_witness : definesMain Module.rcDoc = true :=
  modules_standalone_amended.1 Module.rcDoc (by decide)

/-- Counterexample to C3 as stated: code defined in the crate `macro_demo`
(the bodies generated by its `quote!` templates) runs when `demo_app`'s
entry point executes, and `macro_demo` is a different component of this
repository. -/
theorem demo_app_runs_macro_demo_code :
    Crate.mdemo ∈ runtimeCodeOrigins Crate.demoApp ∧
    Crate.mdemo ≠ Crate.demoApp := by
  decide

/-- Claim C3 (amended): no crate's entry point runs code defined by another
component of this repository, except `demo_app`, whose executable contains
and runs the code generated from `macro_demo`'s templates — in particular
its first printed line is `macro_demo`'s generated `hello_world` body
applied to the struct name `User`. -/
theorem runtime_dependency_amended :
    (∀ c : Crate, c ≠ Crate.demoApp → runtimeCodeOrigins c = [c]) ∧
    runtimeCodeOrigins Crate.demoApp = [Crate.demoApp, Crate.mdemo] ∧
    demoAppHelloLine = "Hello from User!" := by
  refine ⟨?_, rfl, rfl⟩
  intro c hc
  cases c <;> first | rfl | exact absurd rfl hc

/-- Witness for the amended C3 at the concrete crate `rc-doc`. -/
theorem runtime_dependency_witness :
    runtimeCodeOrigins Crate.rcDoc = [Crate.rcDoc] :=
  runtime_dependency_amended.1 Crate.rcDoc (by decide)

/-- Counterexample to C4 as stated: the module `atomic-docs` declares
`static` items — program-lifetime mutable state — and running
`ex_acquire_release_flag` leaves the statics in a state different from
their initial values, i.e. the state written by the call survives it. -/
theorem atomic_docs_keeps_static_state :
    staticItemsDeclared Module.atomicDocs ≠ [] ∧
    ex_acquire_release_flag_run.1 ≠ atomicDocsStaticsInit := by
  decide

/-- Claim C4 (amended): every module except `atomic-docs` declares no
program-lifetime mutable state; `atomic-docs` declares exactly the three
static atomics `READY`, `VALUE` and `PTR`, and after
`ex_acquire_release_flag` returns the static `READY` remains `true`. -/
theorem persistent_state_amended :
    (∀ m : Module, m ≠ Module.atomicDocs → staticItemsDeclared m = []) ∧
    staticItemsDeclared Module.atomicDocs
      = [("READY" : String), ("VALUE" : String), ("PTR" : String)] ∧
    ex_acquire_release_flag_run.1.ready = true := by
  refine ⟨?_, rfl, rfl⟩
  intro m hm
  cases m <;> first | rfl | exact absurd rfl hm

/-- Witness for the amended C4 at the concrete module `rc-doc`. -/
theorem persistent_state_witness : staticItemsDeclared Module.rcDoc = [] :=
  persistent_state_amended.1 Module.rcDoc (by decide)

/-- Counterexample to C5 as stated: in `arc-doc`'s `example_try_unwrap` the
second `Arc::try_unwrap` fails (strong count 2) and its failure is neither
unwrapped nor fatal — the `Err` branch reports the error value and the
function's trace continues to completion (two printed lines). -/
theorem try_unwrap_error_branch_recovers :
    tryUnwrap 2 ("shared") = Except.error 2 ∧
    example_try_unwrap_trace.length = 2 := by
  constructor
  · rfl
  · rfl

/-- Claim C5 (amended): not every fallible operation's failure is unwrapped
or unhandled — at least one operation has a designed non-panicking error
path: `arc-doc`'s `example_try_unwrap` matches the `Err` of
`Arc::try_unwrap`, reports the strong count, and continues to completion,
as its trace shows. -/
theorem error_handling_amended :
    example_try_unwrap_trace
      = [("moved out: unique" : String),
         ("cannot unwrap: strong_count = 2" : String)] ∧
    (Module.arcDoc, ("example_try_unwrap Err branch" : String))
      ∈ nonPanickingErrorSites := by
  constructor
  · rfl
  · decide

/-- Claim C6: under every interleaving of the spawned threads, once all
threads are joined (no iterations remain) the shared counter equals the
number of threads times the per-thread count: 8 × 1000 = 8000 in `arc-doc`'s
`example_atomic_counter` and 8 × 100000 = 800000 in `atomic-docs`'
`ex_relaxed_counter`. -/
theorem counter_examples_all_interleavings :
    (∀ s : CounterSt 8, CounterReach (counterInit 8 1000) s →
      (∀ i, s.rem i = 0) → s.c = 8000) ∧
    (∀ s : CounterSt 8, CounterReach (counterInit 8 100000) s →
      (∀ i, s.rem i = 0) → s.c = 800000) := by
  constructor
  · intro s h hdone
    have hfin := counter_final h hdone
    omega
  · intro s h hdone
    have hfin := counter_final h hdone
    omega

/-- Witness for C6: a concrete complete interleaving (obtained by draining
all iterations) reaches the terminal state, where the theorem applies. -/
theorem counter_examples_witness :
    (CounterSt.mk 8000 (fun _ => 0) : CounterSt 8).c = 8000 :=
  counter_examples_all_interleavings.1 (CounterSt.mk 8000 (fun _ => 0))
    (by
      have hsum : (∑ _i : Fin 8, (1000 : Nat)) = 8000 := by
        rw [Finset.sum_const, Finset.card_univ, Fintype.card_fin, smul_eq_mul]
      have hreach := counter_drain 8000 0 (fun _ => (1000 : Nat)) hsum
      have hstate : (CounterSt.mk (0 + 8000) (fun _ => 0) : CounterSt 8)
          = CounterSt.mk 8000 (fun _ => 0) := by
        norm_num
      rw [hstate] at hreach
      exact hreach)
    (fun i => rfl)

/-- Claim C7: the only I/O primitive occurring in any module's source is a
write to standard output (`println!` / `print!`) — no reads of input and no
writes to files, network, or any sink other than standard output. -/
theorem console_only_effects :
    ∀ (m : Module), ∀ p ∈ ioPrimitivesUsed m, p = IoPrim.stdoutWrite := by
  intro m p hp
  rcases List.mem_singleton.mp hp with rfl
  rfl

/-- Witness for C7 at the concrete module `rc-doc`. -/
theorem console_only_effects_witness : IoPrim.stdoutWrite = IoPrim.stdoutWrite :=
  console_only_effects Module.rcDoc IoPrim.stdoutWrite (by decide)

end Omnisia
